import Mathlib

/-!
Verification development for the py_trees demo repository (behaviour-tree
execution engine and blackboard, as exercised by the demo scripts under
`src/`).  The engine itself (node lifecycle, Sequence/Selector/Parallel
composites, decorators, blackboard store and clients) is not part of the
repository sources; it is modelled here from the specification (spec.md
sections 3, 4.1-4.5).  The demo-specific behaviours (`Counter`,
`ContextSwitch`, `BlackboardWriter`, `Remap`, the `create_root` tree
builders) are translated directly from the sources.
-/

/-- Modelled from the spec: the tri-state (+INVALID) node status enum of
section 3 ("Status: enum INVALID, RUNNING, SUCCESS, FAILURE"). -/
inductive Status where
  | invalid
  | running
  | success
  | failure
deriving DecidableEq

/-- Lifecycle events observed during a tick: `initialise`, `update` and
`terminate` (with the status handed to terminate). -/
inductive Ev where
  | initialise
  | update
  | term (s : Status)
deriving DecidableEq

/-- A traced event: the path of the node it happened at (list of child
indices from the node the tick was invoked on) together with the event. -/
abbrev TEv := List Nat × Ev

/-- Re-root a relative trace below child index `i`. -/
def pfx (i : Nat) (e : TEv) : TEv := (i :: e.1, e.2)

/-- Modelled from the spec: per-node bookkeeping.  `status` is the result of
the last tick (section 3, Node invariant); the counters instrument how often
each lifecycle method has been invoked so far (`tickCount` counts `tick()`
entries, `termInvalidCount` counts `terminate(INVALID)` deliveries, i.e.
received `stop(INVALID)` calls). -/
structure NodeSt where
  status : Status := .invalid
  tickCount : Nat := 0
  initCount : Nat := 0
  updateCount : Nat := 0
  termCount : Nat := 0
  termInvalidCount : Nat := 0
deriving DecidableEq

/-- Local state of a leaf behaviour: the remaining status queue (for
`StatusQueue` leaves), the counter of the `Counter` demo behaviour
(src/lifecycle.py line 117/121) and the feedback message. -/
structure LeafSt where
  queue : List Status := []
  count : Nat := 0
  feedback : String := ""
deriving DecidableEq

/-- The leaf behaviours used by the demo trees.  `statusQueue` and
`runningLeaf` are the library's `py_trees.behaviours.StatusQueue` /
`Running` (modelled from the spec and the demo docstrings); `counter` is the
`Counter` class of src/lifecycle.py; `contextSwitch` is the `ContextSwitch`
class of src/context_switching.py. -/
inductive LeafKind where
  | statusQueue (eventually : Status)
  | runningLeaf
  | counter
  | contextSwitch
deriving DecidableEq

/-- The `initialise()` methods: `Counter.initialise` resets the counter to
zero (src/lifecycle.py lines 114-117); `ContextSwitch.initialise` sets up the
new context (src/context_switching.py lines 131-138); the queue of a
`StatusQueue` is consumed across ticks and is not reset. -/
def leafInitialise : LeafKind → LeafSt → LeafSt
  | .statusQueue _, d => d
  | .runningLeaf, d => d
  | .counter, d => { d with count := 0 }
  | .contextSwitch, d => { d with feedback := "新上下文" }

/-- The `update()` methods.  `StatusQueue` pops the next queued status and
falls back to `eventually` once the queue is exhausted; `Running` always
returns RUNNING; `Counter.update` increments the counter and succeeds exactly
at three (src/lifecycle.py lines 119-137); `ContextSwitch.update` always
returns RUNNING (src/context_switching.py lines 140-146). -/
def leafUpdate : LeafKind → LeafSt → LeafSt × Status
  | .statusQueue eventually, d =>
    match d.queue with
    | [] => (d, eventually)
    | s :: rest => ({ d with queue := rest }, s)
  | .runningLeaf, d => (d, .running)
  | .counter, d =>
    let c := d.count + 1
    let s := if c = 3 then Status.success else Status.running
    let msg := if c = 3 then "计数中..." ++ Nat.repr c ++ " - 唷，今天就数到这里吧" else "还在计数"
    ({ d with count := c, feedback := msg }, s)
  | .contextSwitch, d => (d, .running)

/-- The `terminate()` methods: `ContextSwitch.terminate` restores the cached
context (src/context_switching.py lines 148-156); the others only log. -/
def leafTerminate : LeafKind → LeafSt → LeafSt
  | .contextSwitch, d => { d with feedback := "已恢复上下文" }
  | _, d => d

/-- The two decorators exercised by the demos: `FailureIsRunning`
(src/either_or.py create_root) and `RunningIsFailure`
(src/pick_up_where_you_left_off.py create_root). -/
inductive DecoKind where
  | failureIsRunning
  | runningIsFailure
deriving DecidableEq

/-- Modelled from the spec: the decorator-specific pure status mapping of
section 4.4 — `FailureIsRunning`: FAILURE becomes RUNNING, everything else
passes through; `RunningIsFailure`: RUNNING becomes FAILURE. -/
def decoMap : DecoKind → Status → Status
  | .failureIsRunning, .failure => .running
  | .failureIsRunning, s => s
  | .runningIsFailure, .running => .failure
  | .runningIsFailure, s => s

/-- Modelled from the spec: the behaviour tree (sections 3 and 4).  `seqc`
and `selc` carry the `memory` flag and the resume index of the memory
variant; `parc` is a Parallel with the `SuccessOnOne` policy (the policy used
by src/context_switching.py); `deco` is a single-child decorator. -/
inductive BT where
  | leaf (k : LeafKind) (st : NodeSt) (d : LeafSt)
  | seqc (memory : Bool) (idx : Nat) (st : NodeSt) (children : List BT)
  | selc (memory : Bool) (idx : Nat) (st : NodeSt) (children : List BT)
  | parc (st : NodeSt) (children : List BT)
  | deco (k : DecoKind) (st : NodeSt) (child : BT)

/-- Bookkeeping record of a node. -/
def BT.nodeSt : BT → NodeSt
  | .leaf _ st _ => st
  | .seqc _ _ st _ => st
  | .selc _ _ st _ => st
  | .parc st _ => st
  | .deco _ st _ => st

/-- Current status of a node (result of its last tick). -/
def BT.status (t : BT) : Status := t.nodeSt.status

/-- Number of `tick()` invocations this node has received. -/
def BT.tickCnt (t : BT) : Nat := t.nodeSt.tickCount

/-- Number of `initialise()` invocations this node has received. -/
def BT.initCnt (t : BT) : Nat := t.nodeSt.initCount

/-- Number of `update()` invocations this node has received. -/
def BT.updCnt (t : BT) : Nat := t.nodeSt.updateCount

/-- Number of `terminate(INVALID)` deliveries, i.e. received `stop(INVALID)`
calls, of this node. -/
def BT.termInv (t : BT) : Nat := t.nodeSt.termInvalidCount

/-- Children of a node. -/
def BT.children : BT → List BT
  | .leaf _ _ _ => []
  | .seqc _ _ _ cs => cs
  | .selc _ _ _ cs => cs
  | .parc _ cs => cs
  | .deco _ _ c => [c]

/-- Child at index `i`. -/
def childAt (t : BT) (i : Nat) : Option BT := t.children[i]?

/-- Bookkeeping for a `terminate(ns)` delivery: the forced status is adopted
and the terminate counters are advanced. -/
def termSt (st : NodeSt) (ns : Status) : NodeSt :=
  { st with
    status := ns
    termCount := st.termCount + 1
    termInvalidCount := st.termInvalidCount + (if ns = Status.invalid then 1 else 0) }

/-- Advance the tick counter on `tick()` entry. -/
def bumpTick (st : NodeSt) : NodeSt := { st with tickCount := st.tickCount + 1 }

/-- Advance the initialise counter. -/
def bumpInit (st : NodeSt) : NodeSt := { st with initCount := st.initCount + 1 }

/-- Advance the update counter. -/
def bumpUpd (st : NodeSt) : NodeSt := { st with updateCount := st.updateCount + 1 }

/-- Final bookkeeping of a tick: adopt the status the tick computed, invoking
`terminate` with it when it is not RUNNING (spec section 4.1, step 3). -/
def finSt (st : NodeSt) (s : Status) : NodeSt :=
  if s = Status.running then { st with status := s } else termSt st s

/-- Terminate event emitted at the end of a tick whose status is not
RUNNING. -/
def finTr (s : Status) : List TEv :=
  if s = Status.running then [] else [([], Ev.term s)]

/-- Entry bookkeeping of a tick: count the `tick()` entry and, when the
previous status is not RUNNING, the `initialise()` (spec section 4.1,
step 1). -/
def startSt (st : NodeSt) : NodeSt :=
  if st.status = Status.running then bumpTick st else bumpInit (bumpTick st)

/-- Initialise event emitted on tick entry when the previous status is not
RUNNING. -/
def startTr (st : NodeSt) : List TEv :=
  if st.status = Status.running then [] else [([], Ev.initialise)]

/-- Modelled from the spec: the resume point of a composite (section 4.2) —
a memory composite that was RUNNING resumes at the stored child index;
otherwise evaluation restarts at child 0. -/
def resumeIdx (m : Bool) (i : Nat) (st : NodeSt) : Nat :=
  if st.status = Status.running then (if m then i else 0) else 0

/-- Modelled from the spec: the `SuccessOnOne` aggregation policy of section
4.3 — SUCCESS as soon as any child returned SUCCESS, FAILURE only when all
children (at least one) returned FAILURE, otherwise RUNNING. -/
def successOnOne (ss : List Status) : Status :=
  if Status.success ∈ ss then Status.success
  else if ss ≠ [] ∧ ∀ x ∈ ss, x = Status.failure then Status.failure
  else Status.running

mutual

/-- Modelled from the spec: `stop(new_status)` of section 4.1 — forces
immediate termination, recursively stopping children that are still RUNNING,
and always invokes `terminate()` with the forced status. -/
def stopBT (ns : Status) : BT → BT × List TEv
  | .leaf k st d => (.leaf k (termSt st ns) (leafTerminate k d), [([], Ev.term ns)])
  | .seqc m i st cs =>
    let r := stopKids ns 0 cs
    (.seqc m i (termSt st ns) r.1, r.2 ++ [([], Ev.term ns)])
  | .selc m i st cs =>
    let r := stopKids ns 0 cs
    (.selc m i (termSt st ns) r.1, r.2 ++ [([], Ev.term ns)])
  | .parc st cs =>
    let r := stopKids ns 0 cs
    (.parc (termSt st ns) r.1, r.2 ++ [([], Ev.term ns)])
  | .deco k st c =>
    let r := if c.status = Status.running then stopBT ns c else (c, [])
    (.deco k (termSt st ns) r.1, r.2.map (pfx 0) ++ [([], Ev.term ns)])

/-- Stop every still-RUNNING child of a list, keeping the others untouched;
`i` is the index of the first element (for trace paths). -/
def stopKids (ns : Status) (i : Nat) : List BT → List BT × List TEv
  | [] => ([], [])
  | c :: rest =>
    let r1 := if c.status = Status.running then stopBT ns c else (c, [])
    let r2 := stopKids ns (i + 1) rest
    (r1.1 :: r2.1, r1.2.map (pfx i) ++ r2.2)

end

/-- Modelled from the spec: one `tick()` of a leaf behaviour (section 4.1):
initialise when the previous status is not RUNNING, then invoke `update()`
exactly once, adopt its return value as the new status and terminate when the
new status is not RUNNING. -/
def tickLeaf (k : LeafKind) (st : NodeSt) (d : LeafSt) : BT × Status × List TEv :=
  let d1 := if st.status = Status.running then d else leafInitialise k d
  let u := leafUpdate k d1
  let dF := if u.2 = Status.running then u.1 else leafTerminate k u.1
  (.leaf k (finSt (bumpUpd (startSt st)) u.2) dF, u.2,
    startTr st ++ [([], Ev.update)] ++ finTr u.2)

mutual

/-- Modelled from the spec: one `tick()` of a node (sections 4.1-4.4).
Composites initialise when not RUNNING (resetting the resume index), drive
their children per their algorithm, adopt the aggregate status and apply the
preemption cleanup invariant (children that were RUNNING but are no longer
on the active path receive `stop(INVALID)`). -/
def tickBT : BT → BT × Status × List TEv
  | .leaf k st d => tickLeaf k st d
  | .seqc m i st cs =>
    let r := seqKids (resumeIdx m i st) 0 cs
    (.seqc m (r.2.2.1.getD 0) (finSt (startSt st) r.2.1) r.1, r.2.1,
      startTr st ++ r.2.2.2 ++ finTr r.2.1)
  | .selc m i st cs =>
    let r := selKids (resumeIdx m i st) 0 cs
    (.selc m (r.2.2.1.getD 0) (finSt (startSt st) r.2.1) r.1, r.2.1,
      startTr st ++ r.2.2.2 ++ finTr r.2.1)
  | .parc st cs =>
    let r := parKids 0 cs
    let s := successOnOne r.2.1
    let r2 := if s = Status.running then (r.1, ([] : List TEv)) else stopKids Status.invalid 0 r.1
    (.parc (finSt (startSt st) s) r2.1, s, startTr st ++ r.2.2 ++ r2.2 ++ finTr s)
  | .deco k st c =>
    let r := tickBT c
    let s := decoMap k r.2.1
    let rc := if s ≠ Status.running ∧ r.1.status = Status.running then stopBT Status.invalid r.1 else (r.1, [])
    (.deco k (finSt (bumpUpd (startSt st)) s) rc.1, s,
      startTr st ++ r.2.2.map (pfx 0) ++ [([], Ev.update)] ++ rc.2.map (pfx 0) ++ finTr s)

/-- Sequence child iteration (spec section 4.2): children with absolute index
below the resume point `i0` are skipped (receiving the preemption cleanup if
they are still RUNNING); from `i0` on, children are ticked left-to-right
while they return SUCCESS; the first child returning anything else is adopted
as the current child and the remaining children receive the cleanup; if all
children return SUCCESS, the sequence succeeds. -/
def seqKids (i0 : Nat) (i : Nat) : List BT → List BT × Status × Option Nat × List TEv
  | [] => ([], Status.success, none, [])
  | c :: rest =>
    if i < i0 then
      let r1 := if c.status = Status.running then stopBT Status.invalid c else (c, [])
      let r2 := seqKids i0 (i + 1) rest
      (r1.1 :: r2.1, r2.2.1, r2.2.2.1, r1.2.map (pfx i) ++ r2.2.2.2)
    else
      let r := tickBT c
      if r.2.1 = Status.success then
        let r2 := seqKids i0 (i + 1) rest
        (r.1 :: r2.1, r2.2.1, r2.2.2.1, r.2.2.map (pfx i) ++ r2.2.2.2)
      else
        let rs := stopKids Status.invalid (i + 1) rest
        (r.1 :: rs.1, r.2.1, some i, r.2.2.map (pfx i) ++ rs.2)

/-- Selector child iteration (spec section 4.2): like `seqKids` with the
roles of SUCCESS and FAILURE swapped — children are ticked left-to-right
while they return FAILURE; the first child returning anything else wins; if
every child returns FAILURE the selector fails. -/
def selKids (i0 : Nat) (i : Nat) : List BT → List BT × Status × Option Nat × List TEv
  | [] => ([], Status.failure, none, [])
  | c :: rest =>
    if i < i0 then
      let r1 := if c.status = Status.running then stopBT Status.invalid c else (c, [])
      let r2 := selKids i0 (i + 1) rest
      (r1.1 :: r2.1, r2.2.1, r2.2.2.1, r1.2.map (pfx i) ++ r2.2.2.2)
    else
      let r := tickBT c
      if r.2.1 = Status.failure then
        let r2 := selKids i0 (i + 1) rest
        (r.1 :: r2.1, r2.2.1, r2.2.2.1, r.2.2.map (pfx i) ++ r2.2.2.2)
      else
        let rs := stopKids Status.invalid (i + 1) rest
        (r.1 :: rs.1, r.2.1, some i, r.2.2.map (pfx i) ++ rs.2)

/-- Parallel child iteration (spec section 4.3): every child is ticked every
tick, no short-circuit; the returned statuses are collected in order. -/
def parKids (i : Nat) : List BT → List BT × List Status × List TEv
  | [] => ([], [], [])
  | c :: rest =>
    let r := tickBT c
    let r2 := parKids (i + 1) rest
    (r.1 :: r2.1, r.2.1 :: r2.2.1, r.2.2.map (pfx i) ++ r2.2.2)

end

/-- Tree after one tick. -/
def tickNode (t : BT) : BT := (tickBT t).1

/-- Status returned by one tick. -/
def tickStatus (t : BT) : Status := (tickBT t).2.1

/-- Event trace of one tick. -/
def tickTrace (t : BT) : List TEv := (tickBT t).2.2

/-- Tree after `n` ticks. -/
def runTicks : Nat → BT → BT
  | 0, t => t
  | n + 1, t => runTicks n (tickBT t).1

/-- Statuses returned by the first `n` ticks, in order. -/
def statusTrace (n : Nat) (t : BT) : List Status :=
  (List.range n).map (fun j => tickStatus (runTicks j t))

/-- Child index of an `update` event of a trace (used to express in which
order the children of a composite were ticked). -/
def updIdx : TEv → Option Nat
  | (p, Ev.update) => p.head?
  | _ => none

/-- The tree of src/selector.py `create_root` (lines 105-124): a no-memory
Selector over the `FFS` StatusQueue (FAILURE, FAILURE, SUCCESS, eventually
SUCCESS) and an always-RUNNING behaviour. -/
def selectorRoot : BT :=
  .selc false 0 {} [
    .leaf (.statusQueue Status.success) {} { queue := [Status.failure, Status.failure, Status.success] },
    .leaf .runningLeaf {} {} ]

/-- The tree of src/sequence.py `create_root` (lines 101-119): a memory
Sequence over three StatusQueue behaviours (RUNNING, SUCCESS, eventually
SUCCESS). -/
def sequenceRoot : BT :=
  .seqc true 0 {} [
    .leaf (.statusQueue Status.success) {} { queue := [Status.running, Status.success] },
    .leaf (.statusQueue Status.success) {} { queue := [Status.running, Status.success] },
    .leaf (.statusQueue Status.success) {} { queue := [Status.running, Status.success] } ]

/-- The `Counter` leaf of src/lifecycle.py (lines 97-144), as constructed in
its `main`. -/
def counterNode : BT := .leaf .counter {} {}

/-- The tree of src/context_switching.py `create_root` (lines 159-181): a
Parallel with policy `SuccessOnOne` over the `ContextSwitch` behaviour and a
memory Sequence of two StatusQueue jobs (RUNNING, RUNNING, eventually
SUCCESS). -/
def contextRoot : BT :=
  .parc {} [
    .leaf .contextSwitch {} { feedback := "无上下文" },
    .seqc true 0 {} [
      .leaf (.statusQueue Status.success) {} { queue := [Status.running, Status.running] },
      .leaf (.statusQueue Status.success) {} { queue := [Status.running, Status.running] } ] ]


/-- Modelled from the spec: access modes of a blackboard key registration
(section 4.5). -/
inductive Access where
  | read
  | write
  | exclusiveWrite
deriving DecidableEq

/-- Modelled from the spec: the recoverable blackboard errors of section 7 —
`noSuchKey` (read of an absent key), `accessDenied` (operation not covered by
a registration; the demos catch this as Python's `AttributeError`, while
`noSuchKey` surfaces as `KeyError`) and `notInNamespace`. -/
inductive BBError where
  | noSuchKey (key : String)
  | accessDenied (key : String)
  | notInNamespace (key : String)
deriving DecidableEq

/-- Modelled from the spec: registration-time errors (section 7,
RegistrationError): a duplicate EXCLUSIVE_WRITE claim. -/
inductive RegError where
  | exclusiveConflict (key : String)
deriving DecidableEq

/-- Modelled from the spec: the action recorded by one activity-stream entry
(section 3, Activity Stream). -/
inductive BBAction where
  | readAct
  | writeAct
  | accessDeniedAct
  | noKeyAct
deriving DecidableEq

/-- Modelled from the spec: one activity-stream entry. -/
structure ActivityItem where
  key : String
  client : String
  action : BBAction
deriving DecidableEq

/-- Modelled from the spec: one key registration of a client (section 3,
Blackboard Client): the resolved local absolute name, the remap target it is
redirected to (equal to `localKey` when no remapping was requested) and the
access mode. -/
structure KeyReg where
  localKey : String
  target : String
  access : Access
deriving DecidableEq

/-- Modelled from the spec: a blackboard client — a namespaced, access-scoped
view onto the store (section 3). -/
structure Client where
  name : String
  ns : String := ""
  registry : List KeyReg := []
deriving DecidableEq

/-- Modelled from the spec: the process-wide blackboard store (section 3):
the key/value map, the per-key access metadata (key, client, access) and the
bounded activity stream (disabled while `activityCap` is `none`). -/
structure Blackboard (α : Type) where
  store : List (String × α) := []
  metadata : List (String × String × Access) := []
  activity : List ActivityItem := []
  activityCap : Option Nat := none

/-- Look a key up in the store. -/
def lookupKey {α : Type} : List (String × α) → String → Option α
  | [], _ => none
  | (k, v) :: rest, key => if k = key then some v else lookupKey rest key

/-- Write a key into the store, replacing any previous value. -/
def insertStore {α : Type} : List (String × α) → String → α → List (String × α)
  | [], key, v => [(key, v)]
  | (k, w) :: rest, key, v =>
    if k = key then (key, v) :: rest else (k, w) :: insertStore rest key v

/-- Test whether a key name is absolute (starts with the `/` separator). -/
def isAbs (k : String) : Bool :=
  match k.data with
  | '/' :: _ => true
  | _ => false

/-- Canonical form of a client namespace: the empty root namespace stays
empty, otherwise a single leading separator is ensured. -/
def canonicalNs (ns : String) : String :=
  if ns = "" then "" else if isAbs ns then ns else "/" ++ ns

/-- Modelled from the spec: key resolution of section 4.5 — a name without a
leading separator is resolved relative to the client's namespace by
concatenation, a name with a leading separator is absolute and used as-is. -/
def resolveKey (ns : String) (key : String) : String :=
  if isAbs key then key else canonicalNs ns ++ "/" ++ key

/-- Registration held by the client for a resolved local name, if any. -/
def findReg (cl : Client) (localK : String) : Option KeyReg :=
  cl.registry.find? (fun r => r.localKey == localK)

/-- Whether an access mode permits `set`. -/
def canWrite : Access → Bool
  | .write => true
  | .exclusiveWrite => true
  | .read => false

/-- Whether another client already holds WRITE or EXCLUSIVE_WRITE metadata on
an absolute key. -/
def hasWriteConflict {α : Type} (bb : Blackboard α) (clientName target : String) : Bool :=
  bb.metadata.any (fun m =>
    m.1 == target && m.2.1 != clientName &&
      (m.2.2 == Access.write || m.2.2 == Access.exclusiveWrite))

/-- Append an entry to the activity stream, evicting the oldest entries
beyond the capacity (strict FIFO); no-op while the stream is disabled. -/
def pushActivity {α : Type} (bb : Blackboard α) (e : ActivityItem) : Blackboard α :=
  match bb.activityCap with
  | none => bb
  | some cap =>
    let l := bb.activity ++ [e]
    { bb with activity := l.drop (l.length - cap) }

/-- Modelled from the spec: `register_key` (section 4.5) — records an access
mode for the client against the resolved absolute path (redirected to the
remap target when one is given); an EXCLUSIVE_WRITE registration fails
immediately when another client already holds WRITE or EXCLUSIVE_WRITE on
that key. -/
def registerKey {α : Type} (bb : Blackboard α) (cl : Client) (key : String)
    (access : Access) (remapTo : Option String) :
    Except RegError (Blackboard α × Client) :=
  let localK := resolveKey cl.ns key
  let target := match remapTo with | none => localK | some t => t
  if access = Access.exclusiveWrite ∧ hasWriteConflict bb cl.name target = true then
    Except.error (RegError.exclusiveConflict target)
  else
    Except.ok
      ({ bb with metadata := (target, cl.name, access) :: bb.metadata },
       { cl with registry := ⟨localK, target, access⟩ :: cl.registry })

/-- Modelled from the spec: `get` (sections 4.5 and 6) — resolves the name,
fails with an access violation when the client holds no registration for it,
fails with `noSuchKey` when the registered (remapped) key has no value yet,
and otherwise returns the stored value; each outcome appends one activity
entry referencing the true absolute path. -/
def getKey {α : Type} (bb : Blackboard α) (cl : Client) (key : String) :
    Except BBError α × Blackboard α :=
  let localK := resolveKey cl.ns key
  match findReg cl localK with
  | none =>
    (Except.error (BBError.accessDenied localK),
     pushActivity bb ⟨localK, cl.name, BBAction.accessDeniedAct⟩)
  | some r =>
    match lookupKey bb.store r.target with
    | none =>
      (Except.error (BBError.noSuchKey r.target),
       pushActivity bb ⟨r.target, cl.name, BBAction.noKeyAct⟩)
    | some v =>
      (Except.ok v, pushActivity bb ⟨r.target, cl.name, BBAction.readAct⟩)

/-- Modelled from the spec: `set` (sections 4.5 and 6) — resolves the name,
fails with an access violation when the client holds no WRITE or
EXCLUSIVE_WRITE registration for it, refuses to overwrite an existing value
when `overwrite` is false (surfacing as the `AttributeError` access-violation
family caught in src/blackboard.py lines 161-166), and otherwise stores the
value at the remapped absolute path. -/
def setKey {α : Type} (bb : Blackboard α) (cl : Client) (key : String) (v : α)
    (overwrite : Bool) : Except BBError Unit × Blackboard α :=
  let localK := resolveKey cl.ns key
  match findReg cl localK with
  | none =>
    (Except.error (BBError.accessDenied localK),
     pushActivity bb ⟨localK, cl.name, BBAction.accessDeniedAct⟩)
  | some r =>
    if canWrite r.access then
      if overwrite = false ∧ (lookupKey bb.store r.target).isSome then
        (Except.error (BBError.accessDenied r.target),
         pushActivity bb ⟨r.target, cl.name, BBAction.accessDeniedAct⟩)
      else
        (Except.ok (),
         pushActivity { bb with store := insertStore bb.store r.target v }
           ⟨r.target, cl.name, BBAction.writeAct⟩)
    else
      (Except.error (BBError.accessDenied localK),
       pushActivity bb ⟨localK, cl.name, BBAction.accessDeniedAct⟩)

/-- Whether a status is one of the three values `update()` may legally return
(spec section 4.1, step 2: RUNNING, SUCCESS or FAILURE). -/
def notInvalid : Status → Bool
  | .invalid => false
  | _ => true

/-- Whether a leaf can only ever report proper (non-INVALID) statuses from
its `update()`: a `StatusQueue` must carry proper statuses in its queue and
fallback. -/
def properLeaf : LeafKind → LeafSt → Bool
  | .statusQueue eventually, d => notInvalid eventually && d.queue.all notInvalid
  | _, _ => true

mutual

/-- Whether every leaf in a tree reports only proper statuses (the `update()`
contract of spec section 4.1). -/
def properBT : BT → Bool
  | .leaf k _ d => properLeaf k d
  | .seqc _ _ _ cs => properKids cs
  | .selc _ _ _ cs => properKids cs
  | .parc _ cs => properKids cs
  | .deco _ _ c => properBT c

/-- `properBT` over a list of children. -/
def properKids : List BT → Bool
  | [] => true
  | c :: rest => properBT c && properKids rest

end

/-- Preemption cleanup applied to a child that is not reached by a tick: a
still-RUNNING child receives `stop(INVALID)`, any other child is left
untouched (spec section 4.2, cleanup invariant). -/
def stopRun (c : BT) : BT :=
  if c.status = Status.running then (stopBT Status.invalid c).1 else c

/-- The blackboard client attached by `BlackboardWriter.__init__`
(src/blackboard.py lines 126-137): root namespace, `dude` registered READ and
`spaghetti` registered WRITE. -/
def writerClient : Client :=
  { name := "写入器"
    ns := ""
    registry := [⟨"/spaghetti", "/spaghetti", Access.write⟩, ⟨"/dude", "/dude", Access.read⟩] }

/-- The configuration client of src/blackboard.py `main` (lines 263-267)
after registering `dude` WRITE and `/parameters/default_speed`
EXCLUSIVE_WRITE. -/
def configClient : Client :=
  { name := "配置"
    ns := ""
    registry := [⟨"/parameters/default_speed", "/parameters/default_speed", Access.exclusiveWrite⟩,
                 ⟨"/dude", "/dude", Access.write⟩] }

/-- The namespaced client of src/blackboard_namespaces.py `main` (lines
151-156): namespace `foo`, with `awesome`, `/brilliant` and `/foo/clever`
registered WRITE. -/
def fooClient : Client :=
  { name := "Foo"
    ns := "foo"
    registry := [⟨"/foo/clever", "/foo/clever", Access.write⟩,
                 ⟨"/brilliant", "/brilliant", Access.write⟩,
                 ⟨"/foo/awesome", "/foo/awesome", Access.write⟩] }

/-- The client attached by the `Remap` behaviour
(src/blackboard_remappings.py lines 96-114): `/foo/bar/wow` registered WRITE
with remap target `/parameters/wow`. -/
def remapClient : Client :=
  { name := "重映射"
    ns := ""
    registry := [⟨"/foo/bar/wow", "/parameters/wow", Access.write⟩] }

/-- Feedback message of a leaf behaviour (empty for composites). -/
def BT.leafFeedback : BT → String
  | .leaf _ _ d => d.feedback
  | _ => ""

/-- The Carbonara dictionary written by `BlackboardWriter.update`
(src/blackboard.py line 159). -/
def carbonaraVal : List (String × String) := [("type", "Carbonara"), ("quantity", "1")]

/-- The Gnocchi dictionary written by `BlackboardWriter.update`
(src/blackboard.py line 160). -/
def gnocchiVal : List (String × String) := [("type", "Gnocchi"), ("quantity", "2")]

/-- The Bolognese dictionary whose `overwrite=False` write is refused
(src/blackboard.py lines 162-164). -/
def bologneseVal : List (String × String) := [("type", "Bolognese"), ("quantity", "3")]

/-- The blackboard after `BlackboardWriter.update`'s two successful
`spaghetti` writes (src/blackboard.py lines 159-160): Carbonara then
Gnocchi. -/
def spagBB : Blackboard (List (String × String)) :=
  (setKey (setKey ({} : Blackboard (List (String × String))) writerClient "spaghetti"
      carbonaraVal true).2
    writerClient "spaghetti" gnocchiVal true).2

/-- The blackboard state of src/blackboard_remappings.py `main` when the
`Remap` behaviour runs: the activity stream enabled with capacity 100 (line
139) and the remapped registration's metadata recorded at the target path. -/
def remapBB : Blackboard String :=
  { metadata := [("/parameters/wow", "重映射", Access.write)]
    activityCap := some 100 }

/-- A second client registered directly on `/parameters/wow` with READ
access, observing the remapped write of src/blackboard_remappings.py. -/
def readerClient : Client :=
  { name := "读取器"
    ns := ""
    registry := [⟨"/parameters/wow", "/parameters/wow", Access.read⟩] }

theorem finSt_status (st : NodeSt) (s : Status) : (finSt st s).status = s := by
  unfold finSt termSt
  split <;> rfl

theorem finSt_tickCount (st : NodeSt) (s : Status) : (finSt st s).tickCount = st.tickCount := by
  unfold finSt termSt
  split <;> rfl

theorem finSt_initCount (st : NodeSt) (s : Status) : (finSt st s).initCount = st.initCount := by
  unfold finSt termSt
  split <;> rfl

theorem finSt_updateCount (st : NodeSt) (s : Status) : (finSt st s).updateCount = st.updateCount := by
  unfold finSt termSt
  split <;> rfl

theorem startSt_tickCount (st : NodeSt) : (startSt st).tickCount = st.tickCount + 1 := by
  unfold startSt bumpTick bumpInit
  split <;> rfl

theorem startSt_updateCount (st : NodeSt) : (startSt st).updateCount = st.updateCount := by
  unfold startSt bumpTick bumpInit
  split <;> rfl

/-- Every node kind adopts the status its tick returns (spec section 3, Node
invariant: `status` reflects the result of the last tick). -/
theorem tick_status (t : BT) : (tickBT t).1.status = (tickBT t).2.1 := by
  cases t <;> simp [tickBT, tickLeaf, BT.status, BT.nodeSt, finSt_status]

/-- Every tick advances the node's tick counter by exactly one. -/
theorem tick_tickCnt (t : BT) : (tickBT t).1.tickCnt = t.tickCnt + 1 := by
  cases t <;>
    simp [tickBT, tickLeaf, BT.tickCnt, BT.nodeSt, finSt_tickCount, startSt_tickCount, bumpUpd]

/-- `stop(new_status)` forces the node's status to the forced status. -/
theorem stop_status (ns : Status) (t : BT) : (stopBT ns t).1.status = ns := by
  cases t <;> simp [stopBT, BT.status, BT.nodeSt, termSt]

/-- `stop` never counts as a tick. -/
theorem stop_tickCnt (ns : Status) (t : BT) : (stopBT ns t).1.tickCnt = t.tickCnt := by
  cases t <;> simp [stopBT, BT.tickCnt, BT.nodeSt, termSt]

/-- `stop(INVALID)` delivers exactly one `terminate(INVALID)` to the node it
is invoked on. -/
theorem stop_termInv (ns : Status) (t : BT) :
    (stopBT ns t).1.termInv = t.termInv + (if ns = Status.invalid then 1 else 0) := by
  cases t <;> simp [stopBT, BT.termInv, BT.nodeSt, termSt]

theorem stopRun_not_running (c : BT) : (stopRun c).status ≠ Status.running := by
  unfold stopRun
  by_cases h : c.status = Status.running
  · simp [h, stop_status]
  · simp [h]

theorem stopRun_tickCnt (c : BT) : (stopRun c).tickCnt = c.tickCnt := by
  unfold stopRun
  split <;> simp [stop_tickCnt]

theorem stopKids_length (ns : Status) (cs : List BT) :
    ∀ i, (stopKids ns i cs).1.length = cs.length := by
  induction cs with
  | nil => intro i; simp [stopKids]
  | cons c rest ih => intro i; simp [stopKids, ih]

theorem stopKids_get (cs : List BT) :
    ∀ (i j : Nat), (stopKids Status.invalid i cs).1[j]? = (cs[j]?).map stopRun := by
  induction cs with
  | nil => intro i j; simp [stopKids]
  | cons c rest ih =>
    intro i j
    cases j with
    | zero =>
      simp only [stopKids, List.getElem?_cons_zero, Option.map_some]
      unfold stopRun
      by_cases h : c.status = Status.running <;> simp [h]
    | succ j => simp [stopKids, ih]

theorem stopKids_not_running (ns : Status) (hns : ns ≠ Status.running) (cs : List BT) :
    ∀ i, ∀ c' ∈ (stopKids ns i cs).1, c'.status ≠ Status.running := by
  induction cs with
  | nil => intro i c' hc'; simp [stopKids] at hc'
  | cons c rest ih =>
    intro i c' hc'
    simp only [stopKids, List.mem_cons] at hc'
    rcases hc' with h1 | h2
    · subst h1
      by_cases h : c.status = Status.running
      · simp [h, stop_status]
        exact hns
      · simp [h]
    · exact ih (i + 1) c' h2

theorem parKids_length (cs : List BT) : ∀ i : Nat, (parKids i cs).1.length = cs.length := by
  induction cs with
  | nil => intro i; simp [parKids]
  | cons c rest ih => intro i; simp [parKids, ih]

theorem parKids_get (cs : List BT) :
    ∀ (i j : Nat), (parKids i cs).1[j]? = (cs[j]?).map (fun c => (tickBT c).1) := by
  induction cs with
  | nil => intro i j; simp [parKids]
  | cons c rest ih =>
    intro i j
    cases j with
    | zero => simp [parKids]
    | succ j => simp [parKids, ih]

theorem parKids_status_get (cs : List BT) :
    ∀ (i j : Nat), (parKids i cs).2.1[j]? = (cs[j]?).map (fun c => (tickBT c).2.1) := by
  induction cs with
  | nil => intro i j; simp [parKids]
  | cons c rest ih =>
    intro i j
    cases j with
    | zero => simp [parKids]
    | succ j => simp [parKids, ih]

theorem seqKids_not_running (i0 : Nat) (cs : List BT) :
    ∀ i : Nat, (seqKids i0 i cs).2.1 ≠ Status.running →
      ∀ c' ∈ (seqKids i0 i cs).1, c'.status ≠ Status.running := by
  induction cs with
  | nil => intro i _ c' hc'; simp [seqKids] at hc'
  | cons c rest ih =>
    intro i hs c' hc'
    by_cases hskip : i < i0
    · simp only [seqKids, if_pos hskip, List.mem_cons] at hc' hs
      rcases hc' with h1 | h2
      · subst h1
        by_cases h : c.status = Status.running
        · simp [h, stop_status]
        · simp [h]
      · exact ih (i + 1) hs c' h2
    · by_cases hsucc : (tickBT c).2.1 = Status.success
      · simp only [seqKids, if_neg hskip, if_pos hsucc, List.mem_cons] at hc' hs
        rcases hc' with h1 | h2
        · subst h1
          rw [tick_status, hsucc]
          simp
        · exact ih (i + 1) hs c' h2
      · simp only [seqKids, if_neg hskip, if_neg hsucc, List.mem_cons] at hc' hs
        rcases hc' with h1 | h2
        · subst h1
          rw [tick_status]
          exact hs
        · exact stopKids_not_running Status.invalid (by simp) rest (i + 1) c' h2

theorem selKids_not_running (i0 : Nat) (cs : List BT) :
    ∀ i : Nat, (selKids i0 i cs).2.1 ≠ Status.running →
      ∀ c' ∈ (selKids i0 i cs).1, c'.status ≠ Status.running := by
  induction cs with
  | nil => intro i _ c' hc'; simp [selKids] at hc'
  | cons c rest ih =>
    intro i hs c' hc'
    by_cases hskip : i < i0
    · simp only [selKids, if_pos hskip, List.mem_cons] at hc' hs
      rcases hc' with h1 | h2
      · subst h1
        by_cases h : c.status = Status.running
        · simp [h, stop_status]
        · simp [h]
      · exact ih (i + 1) hs c' h2
    · by_cases hfail : (tickBT c).2.1 = Status.failure
      · simp only [selKids, if_neg hskip, if_pos hfail, List.mem_cons] at hc' hs
        rcases hc' with h1 | h2
        · subst h1
          rw [tick_status, hfail]
          simp
        · exact ih (i + 1) hs c' h2
      · simp only [selKids, if_neg hskip, if_neg hfail, List.mem_cons] at hc' hs
        rcases hc' with h1 | h2
        · subst h1
          rw [tick_status]
          exact hs
        · exact stopKids_not_running Status.invalid (by simp) rest (i + 1) c' h2

/-- Simultaneous induction principle for trees and lists of trees. -/
theorem BT.mutualInduction {P : BT → Prop} {Q : List BT → Prop}
    (hleaf : ∀ k st d, P (.leaf k st d))
    (hseq : ∀ m i st cs, Q cs → P (.seqc m i st cs))
    (hsel : ∀ m i st cs, Q cs → P (.selc m i st cs))
    (hpar : ∀ st cs, Q cs → P (.parc st cs))
    (hdeco : ∀ k st c, P c → P (.deco k st c))
    (hnil : Q [])
    (hcons : ∀ c cs, P c → Q cs → Q (c :: cs)) :
    (∀ t, P t) ∧ (∀ cs, Q cs) := by
  have hP : ∀ t, P t := fun t =>
    @BT.rec P Q hleaf (fun m i st cs h => hseq m i st cs h)
      (fun m i st cs h => hsel m i st cs h) (fun st cs h => hpar st cs h)
      (fun k st c h => hdeco k st c h) hnil (fun c cs hc hcs => hcons c cs hc hcs) t
  refine ⟨hP, fun cs => ?_⟩
  induction cs with
  | nil => exact hnil
  | cons c rest ih => exact hcons c rest (hP c) ih

theorem notInvalid_iff (s : Status) : notInvalid s = true ↔ s ≠ Status.invalid := by
  cases s <;> simp [notInvalid]

theorem decoMap_ne_invalid (k : DecoKind) (s : Status) (h : s ≠ Status.invalid) :
    decoMap k s ≠ Status.invalid := by
  cases k <;> cases s <;> simp_all [decoMap]

theorem successOnOne_ne_invalid (ss : List Status) : successOnOne ss ≠ Status.invalid := by
  unfold successOnOne
  split
  · simp
  · split <;> simp

theorem tickLeaf_proper (k : LeafKind) (st : NodeSt) (d : LeafSt)
    (h : properLeaf k d = true) : (tickLeaf k st d).2.1 ≠ Status.invalid := by
  cases k with
  | statusQueue eventually =>
    simp only [properLeaf, Bool.and_eq_true, List.all_eq_true] at h
    simp only [tickLeaf, leafInitialise, ite_self]
    cases hq : d.queue with
    | nil =>
      simp [leafUpdate, hq]
      exact (notInvalid_iff eventually).1 h.1
    | cons s rest =>
      simp [leafUpdate, hq]
      exact (notInvalid_iff s).1 (h.2 s (by simp [hq]))
  | runningLeaf => simp [tickLeaf, leafUpdate, leafInitialise, ite_self]
  | counter =>
    simp only [tickLeaf, leafUpdate]
    split <;> split <;> simp
  | contextSwitch => simp [tickLeaf, leafUpdate, leafInitialise, ite_self]

/-- Modelled from the spec (section 4.1, update contract): on a tree whose
leaves can only report RUNNING, SUCCESS or FAILURE, no tick ever returns
INVALID, and neither does any sequence/selector child iteration. -/
theorem tick_proper_all :
    (∀ t, properBT t = true → (tickBT t).2.1 ≠ Status.invalid) ∧
    (∀ cs, properKids cs = true → ∀ i0 i : Nat,
       (seqKids i0 i cs).2.1 ≠ Status.invalid ∧ (selKids i0 i cs).2.1 ≠ Status.invalid) := by
  apply BT.mutualInduction
  · intro k st d h
    simp only [properBT] at h
    simpa [tickBT] using tickLeaf_proper k st d h
  · intro m i st cs ih h
    simp only [properBT] at h
    simpa [tickBT] using (ih h (resumeIdx m i st) 0).1
  · intro m i st cs ih h
    simp only [properBT] at h
    simpa [tickBT] using (ih h (resumeIdx m i st) 0).2
  · intro st cs _ _
    simpa [tickBT] using successOnOne_ne_invalid (parKids 0 cs).2.1
  · intro k st c ih h
    simp only [properBT] at h
    simpa [tickBT] using decoMap_ne_invalid k (tickBT c).2.1 (ih h)
  · intro _ i0 i
    constructor <;> simp [seqKids, selKids]
  · intro c rest ihc ihr h i0 i
    simp only [properKids, Bool.and_eq_true] at h
    constructor
    · by_cases hskip : i < i0
      · simpa [seqKids, hskip] using (ihr h.2 i0 (i + 1)).1
      · by_cases hsucc : (tickBT c).2.1 = Status.success
        · simpa [seqKids, hskip, hsucc] using (ihr h.2 i0 (i + 1)).1
        · simpa [seqKids, hskip, hsucc] using ihc h.1
    · by_cases hskip : i < i0
      · simpa [selKids, hskip] using (ihr h.2 i0 (i + 1)).2
      · by_cases hfail : (tickBT c).2.1 = Status.failure
        · simpa [selKids, hskip, hfail] using (ihr h.2 i0 (i + 1)).2
        · simpa [selKids, hskip, hfail] using ihc h.1

theorem tick_proper (t : BT) (h : properBT t = true) : (tickBT t).2.1 ≠ Status.invalid :=
  tick_proper_all.1 t h

theorem stopPair_fst (c : BT) :
    (if c.status = Status.running then stopBT Status.invalid c else (c, ([] : List TEv))).1 =
      stopRun c := by
  unfold stopRun
  split <;> rfl

/-- Full characterization of the sequence child iteration (spec section 4.2):
there is a window of `n` ticked children starting at the resume point;
children before the resume point and children after the window only receive
the preemption cleanup; every ticked child except the last returns SUCCESS;
and the iteration either adopts the non-SUCCESS status of the last ticked
child, or succeeds having run off the end. -/
theorem seqKids_spec (i0 : Nat) (cs : List BT) :
    ∀ i : Nat, ∃ n : Nat,
      (seqKids i0 i cs).1.length = cs.length ∧
      (∀ (j : Nat) (c : BT), cs[j]? = some c → i + j < i0 →
        (seqKids i0 i cs).1[j]? = some (stopRun c)) ∧
      (∀ (j : Nat) (c : BT), cs[j]? = some c → i0 ≤ i + j → i + j < max i i0 + n →
        (seqKids i0 i cs).1[j]? = some (tickBT c).1) ∧
      (∀ (j : Nat) (c : BT), cs[j]? = some c → i0 ≤ i + j → i + j + 1 < max i i0 + n →
        (tickBT c).2.1 = Status.success) ∧
      (∀ (j : Nat) (c : BT), cs[j]? = some c → max i i0 + n ≤ i + j →
        (seqKids i0 i cs).1[j]? = some (stopRun c)) ∧
      ((∃ (j : Nat) (c : BT), cs[j]? = some c ∧ i + j = max i i0 + n - 1 ∧ 1 ≤ n ∧
          (tickBT c).2.1 ≠ Status.success ∧
          (seqKids i0 i cs).2.1 = (tickBT c).2.1 ∧
          (seqKids i0 i cs).2.2.1 = some (i + j)) ∨
       ((seqKids i0 i cs).2.1 = Status.success ∧ (seqKids i0 i cs).2.2.1 = none ∧
          i + cs.length ≤ max i i0 + n ∧
          ∀ (j : Nat) (c : BT), cs[j]? = some c → i0 ≤ i + j →
            (tickBT c).2.1 = Status.success)) := by
  induction cs with
  | nil =>
    intro i
    refine ⟨0, by simp [seqKids], ?_, ?_, ?_, ?_, ?_⟩
    · intro j c h _
      simp at h
    · intro j c h _ _
      simp at h
    · intro j c h _ _
      simp at h
    · intro j c h _
      simp at h
    · right
      refine ⟨by simp [seqKids], by simp [seqKids], by simp, ?_⟩
      intro j c h _
      simp at h
  | cons c rest ih =>
    intro i
    by_cases hskip : i < i0
    · obtain ⟨n, h1, h2, h3, h4, h5, h6⟩ := ih (i + 1)
      have hmax : max i i0 = i0 := Nat.max_eq_right (Nat.le_of_lt hskip)
      have hmax' : max (i + 1) i0 = i0 := Nat.max_eq_right hskip
      refine ⟨n, ?_, ?_, ?_, ?_, ?_, ?_⟩
      · simp [seqKids, if_pos hskip, h1]
      · intro j c' hj hlt
        cases j with
        | zero =>
          simp only [List.getElem?_cons_zero, Option.some.injEq] at hj
          subst hj
          simp [seqKids, if_pos hskip, stopPair_fst]
        | succ j =>
          simp only [List.getElem?_cons_succ] at hj
          simp only [seqKids, if_pos hskip, List.getElem?_cons_succ]
          exact h2 j c' hj (by omega)
      · intro j c' hj hge hlt
        cases j with
        | zero => omega
        | succ j =>
          simp only [List.getElem?_cons_succ] at hj
          simp only [seqKids, if_pos hskip, List.getElem?_cons_succ]
          rw [hmax] at hlt
          exact h3 j c' hj (by omega) (by rw [hmax']; omega)
      · intro j c' hj hge hlt
        cases j with
        | zero => omega
        | succ j =>
          simp only [List.getElem?_cons_succ] at hj
          rw [hmax] at hlt
          exact h4 j c' hj (by omega) (by rw [hmax']; omega)
      · intro j c' hj hge
        cases j with
        | zero =>
          rw [hmax] at hge
          omega
        | succ j =>
          simp only [List.getElem?_cons_succ] at hj
          simp only [seqKids, if_pos hskip, List.getElem?_cons_succ]
          rw [hmax] at hge
          exact h5 j c' hj (by rw [hmax']; omega)
      · rcases h6 with ⟨j, c', hj, hjeq, hn, hns, hst, hk⟩ | ⟨hst, hk, hb, hall⟩
        · left
          rw [hmax'] at hjeq
          refine ⟨j + 1, c', by simpa using hj, by rw [hmax]; omega, hn, hns, ?_, ?_⟩
          · simp only [seqKids, if_pos hskip]
            exact hst
          · simp only [seqKids, if_pos hskip]
            rw [hk]
            congr 1
            omega
        · right
          rw [hmax'] at hb
          refine ⟨?_, ?_, ?_, ?_⟩
          · simp only [seqKids, if_pos hskip]
            exact hst
          · simp only [seqKids, if_pos hskip]
            exact hk
          · simp only [List.length_cons]
            rw [hmax]
            omega
          · intro j c' hj hge
            cases j with
            | zero => omega
            | succ j =>
              simp only [List.getElem?_cons_succ] at hj
              exact hall j c' hj (by omega)
    · by_cases hsucc : (tickBT c).2.1 = Status.success
      · obtain ⟨n, h1, h2, h3, h4, h5, h6⟩ := ih (i + 1)
        have hmax : max i i0 = i := Nat.max_eq_left (Nat.le_of_not_lt hskip)
        have hmax' : max (i + 1) i0 = i + 1 := Nat.max_eq_left (by omega)
        refine ⟨n + 1, ?_, ?_, ?_, ?_, ?_, ?_⟩
        · simp [seqKids, if_neg hskip, if_pos hsucc, h1]
        · intro j c' hj hlt
          omega
        · intro j c' hj hge hlt
          cases j with
          | zero =>
            simp only [List.getElem?_cons_zero, Option.some.injEq] at hj
            subst hj
            simp [seqKids, if_neg hskip, if_pos hsucc]
          | succ j =>
            simp only [List.getElem?_cons_succ] at hj
            simp only [seqKids, if_neg hskip, if_pos hsucc, List.getElem?_cons_succ]
            rw [hmax] at hlt
            exact h3 j c' hj (by omega) (by rw [hmax']; omega)
        · intro j c' hj hge hlt
          cases j with
          | zero => exact hsucc ▸ (by simp only [List.getElem?_cons_zero, Option.some.injEq] at hj; rw [← hj])
          | succ j =>
            simp only [List.getElem?_cons_succ] at hj
            rw [hmax] at hlt
            exact h4 j c' hj (by omega) (by rw [hmax']; omega)
        · intro j c' hj hge
          cases j with
          | zero =>
            rw [hmax] at hge
            omega
          | succ j =>
            simp only [List.getElem?_cons_succ] at hj
            simp only [seqKids, if_neg hskip, if_pos hsucc, List.getElem?_cons_succ]
            rw [hmax] at hge
            exact h5 j c' hj (by rw [hmax']; omega)
        · rcases h6 with ⟨j, c', hj, hjeq, hn, hns, hst, hk⟩ | ⟨hst, hk, hb, hall⟩
          · left
            rw [hmax'] at hjeq
            refine ⟨j + 1, c', by simpa using hj, by rw [hmax]; omega, by omega, hns, ?_, ?_⟩
            · simp only [seqKids, if_neg hskip, if_pos hsucc]
              exact hst
            · simp only [seqKids, if_neg hskip, if_pos hsucc]
              rw [hk]
              congr 1
              omega
          · right
            rw [hmax'] at hb
            refine ⟨?_, ?_, ?_, ?_⟩
            · simp only [seqKids, if_neg hskip, if_pos hsucc]
              exact hst
            · simp only [seqKids, if_neg hskip, if_pos hsucc]
              exact hk
            · simp only [List.length_cons]
              rw [hmax]
              omega
            · intro j c' hj hge
              cases j with
              | zero =>
                simp only [List.getElem?_cons_zero, Option.some.injEq] at hj
                rw [← hj]
                exact hsucc
              | succ j =>
                simp only [List.getElem?_cons_succ] at hj
                exact hall j c' hj (by omega)
      · have hmax : max i i0 = i := Nat.max_eq_left (Nat.le_of_not_lt hskip)
        refine ⟨1, ?_, ?_, ?_, ?_, ?_, ?_⟩
        · simp [seqKids, if_neg hskip, if_neg hsucc, stopKids_length]
        · intro j c' hj hlt
          omega
        · intro j c' hj hge hlt
          cases j with
          | zero =>
            simp only [List.getElem?_cons_zero, Option.some.injEq] at hj
            subst hj
            simp [seqKids, if_neg hskip, if_neg hsucc]
          | succ j =>
            rw [hmax] at hlt
            omega
        · intro j c' hj hge hlt
          rw [hmax] at hlt
          omega
        · intro j c' hj hge
          cases j with
          | zero =>
            rw [hmax] at hge
            omega
          | succ j =>
            simp only [List.getElem?_cons_succ] at hj
            simp only [seqKids, if_neg hskip, if_neg hsucc, List.getElem?_cons_succ]
            rw [stopKids_get rest (i + 1) j, hj]
            rfl
        · left
          refine ⟨0, c, by simp, by rw [hmax]; omega, Nat.le_refl 1, hsucc, ?_, ?_⟩
          · simp [seqKids, if_neg hskip, if_neg hsucc]
          · simp [seqKids, if_neg hskip, if_neg hsucc]

theorem updIdx_pfx (j : Nat) (e : TEv) :
    updIdx (pfx j e) = if e.2 = Ev.update then some j else none := by
  rcases e with ⟨p, ev⟩
  cases ev <;> simp [pfx, updIdx]

theorem mem_updIdx_map_pfx {j : Nat} {tr : List TEv} {x : Nat}
    (hx : x ∈ (tr.map (pfx j)).filterMap updIdx) : x = j := by
  simp only [List.mem_filterMap, List.mem_map] at hx
  obtain ⟨e, ⟨e', _, rfl⟩, hup⟩ := hx
  rw [updIdx_pfx] at hup
  split at hup
  · simp only [Option.some.injEq] at hup
    omega
  · simp at hup

theorem sorted_ge_shape {A B : List Nat} {i : Nat}
    (hA : ∀ x ∈ A, x = i)
    (hBs : B.Pairwise (· ≤ ·)) (hBge : ∀ x ∈ B, i + 1 ≤ x) :
    (A ++ B).Pairwise (· ≤ ·) ∧ ∀ x ∈ A ++ B, i ≤ x := by
  constructor
  · rw [List.pairwise_append]
    refine ⟨List.pairwise_of_forall_mem_list ?_, hBs, ?_⟩
    · intro a ha b hb
      rw [hA a ha, hA b hb]
    · intro a ha b hb
      rw [hA a ha]
      have := hBge b hb
      omega
  · intro x hx
    rcases List.mem_append.1 hx with h | h
    · rw [hA x h]
    · have := hBge x h
      omega

theorem stopKids_updIdx (ns : Status) (cs : List BT) :
    ∀ i : Nat,
      ((stopKids ns i cs).2.filterMap updIdx).Pairwise (· ≤ ·) ∧
      ∀ x ∈ (stopKids ns i cs).2.filterMap updIdx, i ≤ x := by
  induction cs with
  | nil => intro i; simp [stopKids]
  | cons c rest ih =>
    intro i
    obtain ⟨ihs, ihge⟩ := ih (i + 1)
    simp only [stopKids, List.filterMap_append]
    exact sorted_ge_shape (fun x hx => mem_updIdx_map_pfx hx) ihs ihge

theorem seqKids_updIdx (i0 : Nat) (cs : List BT) :
    ∀ i : Nat,
      ((seqKids i0 i cs).2.2.2.filterMap updIdx).Pairwise (· ≤ ·) ∧
      ∀ x ∈ (seqKids i0 i cs).2.2.2.filterMap updIdx, i ≤ x := by
  induction cs with
  | nil => intro i; simp [seqKids]
  | cons c rest ih =>
    intro i
    by_cases hskip : i < i0
    · obtain ⟨ihs, ihge⟩ := ih (i + 1)
      simp only [seqKids, if_pos hskip, List.filterMap_append]
      exact sorted_ge_shape (fun x hx => mem_updIdx_map_pfx hx) ihs ihge
    · by_cases hsucc : (tickBT c).2.1 = Status.success
      · obtain ⟨ihs, ihge⟩ := ih (i + 1)
        simp only [seqKids, if_neg hskip, if_pos hsucc, List.filterMap_append]
        exact sorted_ge_shape (fun x hx => mem_updIdx_map_pfx hx) ihs ihge
      · obtain ⟨ihs, ihge⟩ := stopKids_updIdx Status.invalid rest (i + 1)
        simp only [seqKids, if_neg hskip, if_neg hsucc, List.filterMap_append]
        exact sorted_ge_shape (fun x hx => mem_updIdx_map_pfx hx) ihs ihge

theorem startSt_initCount_of_not_running {st : NodeSt} (h : st.status ≠ Status.running) :
    (startSt st).initCount = st.initCount + 1 := by
  simp [startSt, h, bumpInit, bumpTick]

theorem startSt_initCount_of_running {st : NodeSt} (h : st.status = Status.running) :
    (startSt st).initCount = st.initCount := by
  simp [startSt, h, bumpTick]

theorem updIdx_startTr (st : NodeSt) : (startTr st).filterMap updIdx = [] := by
  unfold startTr
  split <;> simp [updIdx]

theorem updIdx_finTr (s : Status) : (finTr s).filterMap updIdx = [] := by
  unfold finTr
  split <;> simp [updIdx]

theorem filter_upd_startTr (st : NodeSt) :
    (startTr st).filter (fun e => decide (e.2 = Ev.update)) = [] := by
  unfold startTr
  split <;> simp

theorem filter_upd_finTr (s : Status) :
    (finTr s).filter (fun e => decide (e.2 = Ev.update)) = [] := by
  unfold finTr
  split <;> simp

theorem properKids_mem {cs : List BT} (h : properKids cs = true) {c : BT} (hc : c ∈ cs) :
    properBT c = true := by
  induction cs with
  | nil => simp at hc
  | cons a rest ih =>
    simp only [properKids, Bool.and_eq_true] at h
    rcases List.mem_cons.1 hc with rfl | hm
    · exact h.1
    · exact ih h.2 hm

/-- C1: in the tree built by src/selector.py `create_root` — a no-memory
Selector whose first child returns FAILURE, FAILURE, SUCCESS on ticks 1-3 and
whose second child always returns RUNNING — the Selector returns RUNNING on
ticks 1 and 2 and SUCCESS on tick 3, and child 1 receives `stop(INVALID)`
exactly once, on tick 3 (its `terminate(INVALID)` count is 0 after ticks 1
and 2 and 1 after tick 3, at which point its status is INVALID). -/
theorem c1_selector_preemption :
    statusTrace 3 selectorRoot = [Status.running, Status.running, Status.success] ∧
    (childAt (runTicks 1 selectorRoot) 1).map BT.termInv = some 0 ∧
    (childAt (runTicks 2 selectorRoot) 1).map BT.termInv = some 0 ∧
    (childAt (runTicks 3 selectorRoot) 1).map BT.termInv = some 1 ∧
    (childAt (runTicks 3 selectorRoot) 1).map BT.status = some Status.invalid := by
  decide

/-- C3: the behaviour lifecycle (spec section 4.1), as exercised by the
`Counter` leaf of src/lifecycle.py: a tick of a leaf invokes `initialise()`
before `update()` whenever the previous status is not RUNNING (and only
then), invokes `update()` exactly once, and adopts `update()`'s return value
as the node's status; `Counter.initialise` resets the counter to 0, and the
`Counter` run of `main` produces RUNNING, RUNNING, SUCCESS cyclically over
seven ticks. -/
theorem c3_lifecycle (k : LeafKind) (st : NodeSt) (d : LeafSt) :
    ∃ (t' : BT) (s : Status) (tr : List TEv),
      tickBT (BT.leaf k st d) = (t', s, tr) ∧
      (st.status ≠ Status.running →
        tr.head? = some ([], Ev.initialise) ∧ tr[1]? = some ([], Ev.update) ∧
        t'.initCnt = st.initCount + 1 ∧ s = (leafUpdate k (leafInitialise k d)).2) ∧
      (st.status = Status.running →
        tr.head? = some ([], Ev.update) ∧ t'.initCnt = st.initCount ∧
        s = (leafUpdate k d).2) ∧
      (tr.filter (fun e => decide (e.2 = Ev.update))).length = 1 ∧
      t'.updCnt = st.updateCount + 1 ∧
      t'.status = s ∧
      (leafInitialise LeafKind.counter d).count = 0 ∧
      statusTrace 7 counterNode =
        [Status.running, Status.running, Status.success, Status.running,
         Status.running, Status.success, Status.running] := by
  refine ⟨_, _, _, rfl, ?_, ?_, ?_, ?_, ?_, ?_, ?_⟩
  · intro h
    refine ⟨?_, ?_, ?_, ?_⟩
    · simp [tickBT, tickLeaf, startTr, h]
    · simp [tickBT, tickLeaf, startTr, h]
    · simp [tickBT, tickLeaf, BT.initCnt, BT.nodeSt, finSt_initCount, bumpUpd,
        startSt_initCount_of_not_running h]
    · simp [tickBT, tickLeaf, h]
  · intro h
    refine ⟨?_, ?_, ?_⟩
    · simp [tickBT, tickLeaf, startTr, h]
    · simp [tickBT, tickLeaf, BT.initCnt, BT.nodeSt, finSt_initCount, bumpUpd,
        startSt_initCount_of_running h]
    · simp [tickBT, tickLeaf, h]
  · simp [tickBT, tickLeaf, List.filter_append, filter_upd_startTr, filter_upd_finTr]
  · simp [tickBT, tickLeaf, BT.updCnt, BT.nodeSt, finSt_updateCount, bumpUpd,
      startSt_updateCount]
  · simp [tickBT, tickLeaf, BT.status, BT.nodeSt, finSt_status]
  · simp [leafInitialise]
  · decide

/-- Witness for C3 at the freshly-constructed `Counter` leaf (previous status
INVALID, so `initialise` must precede `update`). -/
theorem c3_lifecycle_witness :
    ∃ (t' : BT) (s : Status) (tr : List TEv),
      tickBT (BT.leaf LeafKind.counter {} {}) = (t', s, tr) ∧
      tr.head? = some ([], Ev.initialise) ∧ tr[1]? = some ([], Ev.update) ∧
      t'.initCnt = ({} : NodeSt).initCount + 1 ∧
      s = (leafUpdate LeafKind.counter (leafInitialise LeafKind.counter {})).2 := by
  obtain ⟨t', s, tr, heq, h1, _, _, _, _, _, _⟩ := c3_lifecycle LeafKind.counter {} {}
  obtain ⟨ha, hb, hc, hd⟩ := h1 (by decide)
  exact ⟨t', s, tr, heq, ha, hb, hc, hd⟩

/-- C5: a decorator ticks its single child on every tick and its status is
the decorator-specific pure function of the child's returned status —
`FailureIsRunning` maps FAILURE to RUNNING and passes every other status
through; `RunningIsFailure` maps RUNNING to FAILURE and passes every other
status through (spec section 4.4; used by src/either_or.py and
src/pick_up_where_you_left_off.py `create_root`). -/
theorem c5_decorators (k : DecoKind) (st : NodeSt) (c : BT) :
    (tickBT (BT.deco k st c)).2.1 = decoMap k (tickBT c).2.1 ∧
    (tickBT (BT.deco k st c)).1.status = decoMap k (tickBT c).2.1 ∧
    (∃ (st' : NodeSt) (c' : BT), (tickBT (BT.deco k st c)).1 = BT.deco k st' c' ∧
      c'.tickCnt = c.tickCnt + 1) ∧
    decoMap DecoKind.failureIsRunning Status.failure = Status.running ∧
    decoMap DecoKind.runningIsFailure Status.running = Status.failure ∧
    (∀ x, x ≠ Status.failure → decoMap DecoKind.failureIsRunning x = x) ∧
    (∀ x, x ≠ Status.running → decoMap DecoKind.runningIsFailure x = x) := by
  refine ⟨by simp [tickBT], ?_, ?_, rfl, rfl, ?_, ?_⟩
  · rw [tick_status]
    simp [tickBT]
  · refine ⟨_, _, rfl, ?_⟩
    by_cases h : decoMap k (tickBT c).2.1 ≠ Status.running ∧ (tickBT c).1.status = Status.running
    · simp only [tickBT, if_pos h]
      rw [stop_tickCnt, tick_tickCnt]
    · simp only [tickBT, if_neg h]
      rw [tick_tickCnt]
  · intro x hx
    cases x <;> simp_all [decoMap]
  · intro x hx
    cases x <;> simp_all [decoMap]

/-- Witness for C5: `RunningIsFailure` over an always-RUNNING child (the
high-priority interrupt idiom of src/pick_up_where_you_left_off.py), and the
pass-through cases evaluated at SUCCESS. -/
theorem c5_decorators_witness :
    (tickBT (BT.deco DecoKind.runningIsFailure {} (BT.leaf LeafKind.runningLeaf {} {}))).2.1 =
      decoMap DecoKind.runningIsFailure (tickBT (BT.leaf LeafKind.runningLeaf {} {})).2.1 ∧
    decoMap DecoKind.failureIsRunning Status.success = Status.success ∧
    decoMap DecoKind.runningIsFailure Status.success = Status.success := by
  refine ⟨(c5_decorators DecoKind.runningIsFailure {} (BT.leaf LeafKind.runningLeaf {} {})).1,
    (c5_decorators DecoKind.runningIsFailure {}
      (BT.leaf LeafKind.runningLeaf {} {})).2.2.2.2.2.1 Status.success (by decide),
    (c5_decorators DecoKind.runningIsFailure {}
      (BT.leaf LeafKind.runningLeaf {} {})).2.2.2.2.2.2 Status.success (by decide)⟩

/-- C2: sequence semantics (spec section 4.2, as built by src/sequence.py
`create_root`): a tick of a Sequence ticks a contiguous window of children
starting at its resume point, in ascending index order (the `update` events
of its trace carry ascending child indices); every ticked child except the
last returns SUCCESS; the first child returning RUNNING or FAILURE determines
the Sequence's status and no child with a greater index is ticked that round;
and if every ticked child returns SUCCESS the Sequence returns SUCCESS. -/
theorem c2_sequence (m : Bool) (i : Nat) (st : NodeSt) (cs : List BT)
    (hprop : properKids cs = true) :
    ∃ (n : Nat) (cs' : List BT) (i' : Nat) (st' : NodeSt) (s : Status) (tr : List TEv),
      tickBT (BT.seqc m i st cs) = (BT.seqc m i' st' cs', s, tr) ∧
      cs'.length = cs.length ∧
      (∀ (j : Nat) (c : BT), cs[j]? = some c → resumeIdx m i st ≤ j →
          j < resumeIdx m i st + n →
        cs'[j]? = some (tickBT c).1 ∧ (tickBT c).1.tickCnt = c.tickCnt + 1) ∧
      (∀ (j : Nat) (c : BT), cs[j]? = some c →
          (j < resumeIdx m i st ∨ resumeIdx m i st + n ≤ j) →
        ∃ c', cs'[j]? = some c' ∧ c'.tickCnt = c.tickCnt) ∧
      (∀ (j : Nat) (c : BT), cs[j]? = some c → resumeIdx m i st ≤ j →
          j + 1 < resumeIdx m i st + n →
        (tickBT c).2.1 = Status.success) ∧
      ((∃ c : BT, cs[resumeIdx m i st + n - 1]? = some c ∧ 1 ≤ n ∧
          ((tickBT c).2.1 = Status.running ∨ (tickBT c).2.1 = Status.failure) ∧
          s = (tickBT c).2.1) ∨
       (s = Status.success ∧ cs.length ≤ resumeIdx m i st + n ∧
        ∀ (j : Nat) (c : BT), cs[j]? = some c → resumeIdx m i st ≤ j →
          (tickBT c).2.1 = Status.success)) ∧
      (tr.filterMap updIdx).Pairwise (· ≤ ·) := by
  obtain ⟨n, h1, h2, h3, h4, h5, h6⟩ := seqKids_spec (resumeIdx m i st) cs 0
  simp only [Nat.zero_add, Nat.zero_max] at h2 h3 h4 h5 h6
  refine ⟨n, (seqKids (resumeIdx m i st) 0 cs).1,
    (seqKids (resumeIdx m i st) 0 cs).2.2.1.getD 0,
    finSt (startSt st) (seqKids (resumeIdx m i st) 0 cs).2.1,
    (seqKids (resumeIdx m i st) 0 cs).2.1,
    startTr st ++ (seqKids (resumeIdx m i st) 0 cs).2.2.2 ++
      finTr (seqKids (resumeIdx m i st) 0 cs).2.1,
    rfl, h1, ?_, ?_, h4, ?_, ?_⟩
  · intro j c hj hge hlt
    exact ⟨h3 j c hj hge hlt, tick_tickCnt c⟩
  · intro j c hj hd
    rcases hd with hlt | hge
    · exact ⟨stopRun c, h2 j c hj hlt, stopRun_tickCnt c⟩
    · exact ⟨stopRun c, h5 j c hj hge, stopRun_tickCnt c⟩
  · rcases h6 with ⟨j, c, hj, hjeq, hn, hns, hst, _⟩ | ⟨hst, _, hb, hall⟩
    · left
      rw [hjeq] at hj
      refine ⟨c, hj, hn, ?_, hst⟩
      have hc : c ∈ cs := List.getElem?_mem hj
      have hni := tick_proper c (properKids_mem hprop hc)
      cases hcs : (tickBT c).2.1 with
      | invalid => exact absurd hcs hni
      | running => exact Or.inl rfl
      | success => exact absurd hcs hns
      | failure => exact Or.inr rfl
    · right
      exact ⟨hst, hb, hall⟩
  · simp only [List.filterMap_append, updIdx_startTr, updIdx_finTr, List.nil_append,
      List.append_nil]
    exact (seqKids_updIdx (resumeIdx m i st) cs 0).1

/-- Witness for C2 at the tree of src/sequence.py `create_root` (memory
Sequence over three RUNNING-then-SUCCESS StatusQueue children). -/
theorem c2_sequence_witness :
    ∃ (cs' : List BT) (i' : Nat) (st' : NodeSt) (s : Status) (tr : List TEv),
      tickBT sequenceRoot = (BT.seqc true i' st' cs', s, tr) ∧
      cs'.length = 3 ∧ (tr.filterMap updIdx).Pairwise (· ≤ ·) := by
  obtain ⟨_n, cs', i', st', s, tr, heq, hlen, _, _, _, _, hsort⟩ :=
    c2_sequence true 0 {}
      [BT.leaf (.statusQueue Status.success) {} { queue := [Status.running, Status.success] },
       BT.leaf (.statusQueue Status.success) {} { queue := [Status.running, Status.success] },
       BT.leaf (.statusQueue Status.success) {} { queue := [Status.running, Status.success] }]
      (by decide)
  exact ⟨cs', i', st', s, tr, heq, by simpa using hlen, hsort⟩

/-- C4: the cleanup invariant on resolution (spec sections 4.2 and 4.3): when
any composite's tick returns SUCCESS or FAILURE, no child of the resulting
node is left RUNNING; for a Parallel (SuccessOnOne) every child that returned
RUNNING on the resolving tick receives `stop(INVALID)` — its status becomes
INVALID and its `terminate(INVALID)` count increases by one — before the
composite's tick returns; concretely, in the src/context_switching.py tree
the work sequence returns SUCCESS on tick 5, and on that same tick the
perpetually-RUNNING `ContextSwitch` child is stopped exactly once, its
`terminate` restoring the context (feedback "已恢复上下文"). -/
theorem c4_cleanup :
    (∀ t : BT, ((tickBT t).2.1 = Status.success ∨ (tickBT t).2.1 = Status.failure) →
       ∀ c' ∈ (tickBT t).1.children, c'.status ≠ Status.running) ∧
    (∀ (st : NodeSt) (cs : List BT) (j : Nat) (c : BT),
       ((tickBT (BT.parc st cs)).2.1 = Status.success ∨
         (tickBT (BT.parc st cs)).2.1 = Status.failure) →
       cs[j]? = some c → (tickBT c).2.1 = Status.running →
       ∃ c', childAt (tickBT (BT.parc st cs)).1 j = some c' ∧
         c'.status = Status.invalid ∧
         c'.termInv = (tickBT c).1.termInv + 1 ∧
         c'.tickCnt = c.tickCnt + 1) ∧
    (statusTrace 5 contextRoot =
       [Status.running, Status.running, Status.running, Status.running, Status.success] ∧
     (childAt (runTicks 5 contextRoot) 1).map BT.status = some Status.success ∧
     (childAt (runTicks 4 contextRoot) 0).map BT.termInv = some 0 ∧
     (childAt (runTicks 5 contextRoot) 0).map BT.termInv = some 1 ∧
     (childAt (runTicks 5 contextRoot) 0).map BT.status = some Status.invalid ∧
     (childAt (runTicks 5 contextRoot) 0).map BT.leafFeedback = some "已恢复上下文") := by
  refine ⟨?_, ?_, by decide⟩
  · intro t hres c' hc'
    have hne : (tickBT t).2.1 ≠ Status.running := by
      rcases hres with h | h <;> simp [h]
    cases t with
    | leaf k st d =>
      simp [tickBT, tickLeaf, BT.children] at hc'
    | seqc m i st cs =>
      apply seqKids_not_running (resumeIdx m i st) cs 0 (by simpa [tickBT] using hne)
      simpa [tickBT, BT.children] using hc'
    | selc m i st cs =>
      apply selKids_not_running (resumeIdx m i st) cs 0 (by simpa [tickBT] using hne)
      simpa [tickBT, BT.children] using hc'
    | parc st cs =>
      have hne' : successOnOne (parKids 0 cs).2.1 ≠ Status.running := by
        simpa [tickBT] using hne
      apply stopKids_not_running Status.invalid (by simp) (parKids 0 cs).1 0
      simpa [tickBT, BT.children, if_neg hne'] using hc'
    | deco k st c =>
      have hne' : decoMap k (tickBT c).2.1 ≠ Status.running := by
        simpa [tickBT] using hne
      simp only [tickBT, BT.children, List.mem_singleton] at hc'
      subst hc'
      by_cases hcr : (tickBT c).1.status = Status.running
      · rw [if_pos ⟨hne', hcr⟩]
        simp [stop_status]
      · rw [if_neg (by simp [hcr])]
        exact hcr
  · intro st cs j c hres hj hcr
    have hne : successOnOne (parKids 0 cs).2.1 ≠ Status.running := by
      rcases hres with h | h <;> simp only [tickBT] at h <;> simp [h]
    have hrun : (tickBT c).1.status = Status.running := by
      rw [tick_status]
      exact hcr
    refine ⟨(stopBT Status.invalid (tickBT c).1).1, ?_, stop_status _ _, ?_, ?_⟩
    · simp only [childAt, tickBT, BT.children, if_neg hne]
      rw [stopKids_get, parKids_get, hj]
      simp [stopRun, hrun]
    · rw [stop_termInv]
      simp
    · rw [stop_tickCnt, tick_tickCnt]

/-- Witness for C4 at a concrete SuccessOnOne Parallel: a `ContextSwitch`
child beside a child that succeeds immediately — the parallel resolves
SUCCESS and the RUNNING context switch is stopped with INVALID. -/
theorem c4_cleanup_witness :
    ∃ c', childAt (tickBT (BT.parc {}
        [BT.leaf .contextSwitch {} { feedback := "无上下文" },
         BT.leaf (.statusQueue Status.success) {} { queue := [Status.success] }])).1 0 =
          some c' ∧
      c'.status = Status.invalid ∧
      c'.termInv = (tickBT (BT.leaf .contextSwitch {} { feedback := "无上下文" })).1.termInv + 1 ∧
      c'.tickCnt = (BT.leaf .contextSwitch {} { feedback := "无上下文" }).tickCnt + 1 :=
  c4_cleanup.2.1 {}
    [BT.leaf .contextSwitch {} { feedback := "无上下文" },
     BT.leaf (.statusQueue Status.success) {} { queue := [Status.success] }]
    0 (BT.leaf .contextSwitch {} { feedback := "无上下文" })
    (Or.inl (by decide)) (by rfl) (by decide)

theorem lookupKey_insertStore {α : Type} (s : List (String × α)) (k : String) (v : α) :
    lookupKey (insertStore s k v) k = some v := by
  induction s with
  | nil => simp [insertStore, lookupKey]
  | cons p rest ih =>
    rcases p with ⟨k', w⟩
    by_cases h : k' = k
    · simp [insertStore, h, lookupKey]
    · simp [insertStore, h, lookupKey, ih]

theorem pushActivity_store {α : Type} (bb : Blackboard α) (e : ActivityItem) :
    (pushActivity bb e).store = bb.store := by
  unfold pushActivity
  split <;> rfl

theorem pushActivity_getLast {α : Type} (bb : Blackboard α) (e : ActivityItem) (cap : Nat)
    (hcap : bb.activityCap = some cap) (h1 : 1 ≤ cap) :
    (pushActivity bb e).activity.getLast? = some e := by
  unfold pushActivity
  rw [hcap]
  simp only [List.length_append, List.length_cons, List.length_nil]
  rw [List.drop_append_of_le_length (by omega)]
  exact List.getLast?_concat _

theorem hasWriteConflict_iff {α : Type} (bb : Blackboard α) (cn target : String) :
    hasWriteConflict bb cn target = true ↔
      ∃ m ∈ bb.metadata, m.1 = target ∧ m.2.1 ≠ cn ∧
        (m.2.2 = Access.write ∨ m.2.2 = Access.exclusiveWrite) := by
  simp [hasWriteConflict, List.any_eq_true, Bool.and_eq_true, Bool.or_eq_true,
    beq_iff_eq, bne_iff_ne, and_assoc]

/-- C6: blackboard access control versus missing values (spec sections 4.5
and 7, as exercised by `BlackboardWriter.update` in src/blackboard.py lines
141-167): reading a key with no registration, or writing one (regardless of
the overwrite flag), fails with `accessDenied` (the demo's `AttributeError`);
reading a registered key that has no value yet fails with `noSuchKey` (the
demo's `KeyError`); writing through a READ-only registration fails with
`accessDenied`; and the two error variants are distinguishable. -/
theorem c6_blackboard_errors {α : Type} (bb : Blackboard α) (cl : Client) (key : String) :
    (findReg cl (resolveKey cl.ns key) = none →
      (getKey bb cl key).1 = Except.error (BBError.accessDenied (resolveKey cl.ns key)) ∧
      ∀ (v : α) (ow : Bool), (setKey bb cl key v ow).1 =
        Except.error (BBError.accessDenied (resolveKey cl.ns key))) ∧
    (∀ r : KeyReg, findReg cl (resolveKey cl.ns key) = some r →
      lookupKey bb.store r.target = none →
      (getKey bb cl key).1 = Except.error (BBError.noSuchKey r.target)) ∧
    (∀ r : KeyReg, findReg cl (resolveKey cl.ns key) = some r → r.access = Access.read →
      ∀ (v : α) (ow : Bool), (setKey bb cl key v ow).1 =
        Except.error (BBError.accessDenied (resolveKey cl.ns key))) ∧
    (∀ k1 k2 : String, BBError.noSuchKey k1 ≠ BBError.accessDenied k2) := by
  refine ⟨?_, ?_, ?_, ?_⟩
  · intro h
    exact ⟨by simp [getKey, h], fun v ow => by simp [setKey, h]⟩
  · intro r hr hl
    simp [getKey, hr, hl]
  · intro r hr hacc v ow
    simp [setKey, hr, hacc, canWrite]
  · intro k1 k2
    simp

/-- Witness for C6 at the `BlackboardWriter` client against an empty store:
`dudette` is unregistered (access violation on read and write), `dude` is
registered but unset (no-such-key), and the two errors differ. -/
theorem c6_blackboard_errors_witness :
    (getKey ({} : Blackboard String) writerClient "dudette").1 =
      Except.error (BBError.accessDenied (resolveKey writerClient.ns "dudette")) ∧
    (setKey ({} : Blackboard String) writerClient "dudette" "Jane" true).1 =
      Except.error (BBError.accessDenied (resolveKey writerClient.ns "dudette")) ∧
    (getKey ({} : Blackboard String) writerClient "dude").1 =
      Except.error (BBError.noSuchKey "/dude") ∧
    resolveKey writerClient.ns "dudette" = "/dudette" ∧
    BBError.noSuchKey "/dude" ≠ BBError.accessDenied "/dudette" := by
  refine ⟨((c6_blackboard_errors ({} : Blackboard String) writerClient "dudette").1
      (by decide)).1,
    ((c6_blackboard_errors ({} : Blackboard String) writerClient "dudette").1
      (by decide)).2 "Jane" true,
    (c6_blackboard_errors ({} : Blackboard String) writerClient "dude").2.1
      ⟨"/dude", "/dude", Access.read⟩ (by decide) (by decide),
    by decide,
    (c6_blackboard_errors ({} : Blackboard String) writerClient "dude").2.2.2
      "/dude" "/dudette"⟩

/-- C7: EXCLUSIVE_WRITE registration conflicts are enforced at registration
time (spec section 4.5): registering a key EXCLUSIVE_WRITE fails immediately
with a registration error when any other client already holds WRITE or
EXCLUSIVE_WRITE metadata on the resolved key, and succeeds (recording the
metadata and the registry entry) when no other client does — as with
`/parameters/default_speed` in src/blackboard.py `main`. -/
theorem c7_exclusive_registration {α : Type} (bb : Blackboard α) (cl : Client) (key : String) :
    ((∃ m ∈ bb.metadata, m.1 = resolveKey cl.ns key ∧ m.2.1 ≠ cl.name ∧
        (m.2.2 = Access.write ∨ m.2.2 = Access.exclusiveWrite)) →
      registerKey bb cl key Access.exclusiveWrite none =
        Except.error (RegError.exclusiveConflict (resolveKey cl.ns key))) ∧
    ((¬ ∃ m ∈ bb.metadata, m.1 = resolveKey cl.ns key ∧ m.2.1 ≠ cl.name ∧
        (m.2.2 = Access.write ∨ m.2.2 = Access.exclusiveWrite)) →
      ∃ (bb' : Blackboard α) (cl' : Client),
        registerKey bb cl key Access.exclusiveWrite none = Except.ok (bb', cl') ∧
        (resolveKey cl.ns key, cl.name, Access.exclusiveWrite) ∈ bb'.metadata ∧
        (⟨resolveKey cl.ns key, resolveKey cl.ns key, Access.exclusiveWrite⟩ : KeyReg) ∈
          cl'.registry) := by
  constructor
  · intro h
    have hc : hasWriteConflict bb cl.name (resolveKey cl.ns key) = true :=
      (hasWriteConflict_iff bb cl.name (resolveKey cl.ns key)).2 h
    simp [registerKey, hc]
  · intro h
    have hc : hasWriteConflict bb cl.name (resolveKey cl.ns key) = false := by
      by_contra hne
      exact h ((hasWriteConflict_iff bb cl.name (resolveKey cl.ns key)).1
        (by revert hne; cases hasWriteConflict bb cl.name (resolveKey cl.ns key) <;> simp))
    refine ⟨{ bb with
        metadata := (resolveKey cl.ns key, cl.name, Access.exclusiveWrite) :: bb.metadata },
      { cl with
        registry := ⟨resolveKey cl.ns key, resolveKey cl.ns key, Access.exclusiveWrite⟩ ::
          cl.registry },
      ?_, by simp, by simp⟩
    simp [registerKey, hc]

/-- Witness for C7: a second client's EXCLUSIVE_WRITE claim on a key already
WRITE-registered by another client fails, while the `配置` client's
EXCLUSIVE_WRITE registration of `/parameters/default_speed` (only `/dude`
metadata present, held by itself) succeeds. -/
theorem c7_exclusive_registration_witness :
    registerKey ({ metadata := [("/k", "c1", Access.write)] } : Blackboard String)
        { name := "c2" } "k" Access.exclusiveWrite none =
      Except.error (RegError.exclusiveConflict (resolveKey ({ name := "c2" } : Client).ns "k")) ∧
    ∃ (bb' : Blackboard String) (cl' : Client),
      registerKey ({ metadata := [("/dude", "配置", Access.write)] } : Blackboard String)
          { name := "配置", registry := [⟨"/dude", "/dude", Access.write⟩] }
          "/parameters/default_speed" Access.exclusiveWrite none = Except.ok (bb', cl') ∧
      ("/parameters/default_speed", "配置", Access.exclusiveWrite) ∈ bb'.metadata := by
  constructor
  · exact (c7_exclusive_registration
      ({ metadata := [("/k", "c1", Access.write)] } : Blackboard String)
      { name := "c2" } "k").1 ⟨("/k", "c1", Access.write), by simp, by decide, by decide,
        Or.inl rfl⟩
  · obtain ⟨bb', cl', heq, hm, _⟩ := (c7_exclusive_registration
      ({ metadata := [("/dude", "配置", Access.write)] } : Blackboard String)
      { name := "配置", registry := [⟨"/dude", "/dude", Access.write⟩] }
      "/parameters/default_speed").2 (by decide)
    exact ⟨bb', cl', heq, by simpa using hm⟩

/-- C8: remapping (spec section 4.5, as exercised by the `Remap` behaviour of
src/blackboard_remappings.py): a set through a local name registered with a
remap target stores the value at the remapped absolute path, so any client
registered on that path reads exactly the written value; the activity stream
entry references the remapped (true) absolute path; and registration with a
remap target records the target, not the local name, in the store metadata,
while the client registry keeps the local-to-target association. -/
theorem c8_remapping {α : Type} (bb : Blackboard α) (cl : Client) (key : String) (r : KeyReg)
    (hr : findReg cl (resolveKey cl.ns key) = some r)
    (hw : canWrite r.access = true) (v : α) :
    (setKey bb cl key v true).1 = Except.ok () ∧
    lookupKey (setKey bb cl key v true).2.store r.target = some v ∧
    (∀ (cl2 : Client) (key2 : String) (r2 : KeyReg),
      findReg cl2 (resolveKey cl2.ns key2) = some r2 → r2.target = r.target →
      (getKey (setKey bb cl key v true).2 cl2 key2).1 = Except.ok v) ∧
    (∀ cap : Nat, bb.activityCap = some cap → 1 ≤ cap →
      ((setKey bb cl key v true).2.activity).getLast? =
        some ⟨r.target, cl.name, BBAction.writeAct⟩) ∧
    (∀ (bb2 : Blackboard α) (cl3 : Client) (k3 : String) (a : Access) (tgt : String)
        (bb3 : Blackboard α) (cl4 : Client),
      registerKey bb2 cl3 k3 a (some tgt) = Except.ok (bb3, cl4) →
      (tgt, cl3.name, a) ∈ bb3.metadata ∧
      (⟨resolveKey cl3.ns k3, tgt, a⟩ : KeyReg) ∈ cl4.registry) := by
  have hset : setKey bb cl key v true =
      (Except.ok (), pushActivity { bb with store := insertStore bb.store r.target v }
        ⟨r.target, cl.name, BBAction.writeAct⟩) := by
    simp [setKey, hr, hw]
  refine ⟨by rw [hset], ?_, ?_, ?_, ?_⟩
  · rw [hset]
    simp [pushActivity_store, lookupKey_insertStore]
  · intro cl2 key2 r2 h2 htgt
    rw [hset]
    simp [getKey, h2, htgt, pushActivity_store, lookupKey_insertStore]
  · intro cap hcap h1
    rw [hset]
    exact pushActivity_getLast _ _ cap (by simpa using hcap) h1
  · intro bb2 cl3 k3 a tgt bb3 cl4 hreg
    by_cases hc : a = Access.exclusiveWrite ∧ hasWriteConflict bb2 cl3.name tgt = true
    · simp [registerKey, hc] at hreg
    · simp only [registerKey, if_neg hc, Except.ok.injEq, Prod.mk.injEq] at hreg
      obtain ⟨h3, h4⟩ := hreg
      constructor
      · rw [← h3]
        simp
      · rw [← h4]
        simp

/-- Witness for C8 at the `Remap` demo: writing `colander` through the local
name `/foo/bar/wow` (remapped to `/parameters/wow`) stores it at
`/parameters/wow`, a reader client registered directly on `/parameters/wow`
reads it back, and the activity entry references `/parameters/wow`. -/
theorem c8_remapping_witness :
    (setKey remapBB remapClient "/foo/bar/wow" "colander" true).1 = Except.ok () ∧
    lookupKey (setKey remapBB remapClient "/foo/bar/wow" "colander" true).2.store
      "/parameters/wow" = some "colander" ∧
    (getKey (setKey remapBB remapClient "/foo/bar/wow" "colander" true).2
      readerClient "/parameters/wow").1 = Except.ok "colander" ∧
    ((setKey remapBB remapClient "/foo/bar/wow" "colander" true).2.activity).getLast? =
      some ⟨"/parameters/wow", "重映射", BBAction.writeAct⟩ := by
  have h := c8_remapping remapBB remapClient "/foo/bar/wow"
    ⟨"/foo/bar/wow", "/parameters/wow", Access.write⟩ (by rfl) (by rfl) "colander"
  exact ⟨h.1, h.2.1,
    h.2.2.1 readerClient "/parameters/wow"
      ⟨"/parameters/wow", "/parameters/wow", Access.read⟩ (by rfl) rfl,
    h.2.2.2.1 100 rfl (by omega)⟩

/-- C9: namespaced key resolution (spec section 4.5, as exercised by
src/blackboard_namespaces.py `main`): a key without a leading separator
resolves to the concatenation of the client's namespace and the key, a key
with a leading separator is absolute and used as-is, and a client cannot read
or write any path it has not registered. -/
theorem c9_namespaces {α : Type} (bb : Blackboard α) (cl : Client) (key : String) :
    (isAbs key = false → resolveKey cl.ns key = canonicalNs cl.ns ++ "/" ++ key) ∧
    (isAbs key = true → resolveKey cl.ns key = key) ∧
    (findReg cl (resolveKey cl.ns key) = none →
      (getKey bb cl key).1 = Except.error (BBError.accessDenied (resolveKey cl.ns key)) ∧
      ∀ (v : α) (ow : Bool), (setKey bb cl key v ow).1 =
        Except.error (BBError.accessDenied (resolveKey cl.ns key))) := by
  refine ⟨?_, ?_, ?_⟩
  · intro h
    simp [resolveKey, h]
  · intro h
    simp [resolveKey, h]
  · intro h
    exact ⟨by simp [getKey, h], fun v ow => by simp [setKey, h]⟩

/-- Witness for C9 at the `foo` client of src/blackboard_namespaces.py:
`awesome` resolves inside the namespace to `/foo/awesome`, `/brilliant` and
`/foo/clever` are absolute and used as-is, and an unregistered name is denied
on read. -/
theorem c9_namespaces_witness :
    resolveKey fooClient.ns "awesome" = canonicalNs fooClient.ns ++ "/" ++ "awesome" ∧
    canonicalNs fooClient.ns ++ "/" ++ "awesome" = "/foo/awesome" ∧
    resolveKey fooClient.ns "/brilliant" = "/brilliant" ∧
    resolveKey fooClient.ns "/foo/clever" = "/foo/clever" ∧
    (getKey ({} : Blackboard String) fooClient "unregistered").1 =
      Except.error (BBError.accessDenied (resolveKey fooClient.ns "unregistered")) :=
  ⟨(c9_namespaces ({} : Blackboard String) fooClient "awesome").1 (by decide),
   by decide,
   (c9_namespaces ({} : Blackboard String) fooClient "/brilliant").2.1 (by decide),
   (c9_namespaces ({} : Blackboard String) fooClient "/foo/clever").2.1 (by decide),
   ((c9_namespaces ({} : Blackboard String) fooClient "unregistered").2.2 (by decide)).1⟩

/-- C10: refusing to overwrite (spec section 6 `set` with `overwrite`; the
`AttributeError` caught in src/blackboard.py lines 161-166): when a writable
registered key already holds a value, `set` with `overwrite = false` fails
and leaves the stored value unchanged. -/
theorem c10_overwrite_guard {α : Type} (bb : Blackboard α) (cl : Client) (key : String)
    (r : KeyReg) (w : α)
    (hr : findReg cl (resolveKey cl.ns key) = some r)
    (hw : canWrite r.access = true)
    (hv : lookupKey bb.store r.target = some w) (v : α) :
    (setKey bb cl key v false).1 = Except.error (BBError.accessDenied r.target) ∧
    lookupKey (setKey bb cl key v false).2.store r.target = some w := by
  have hset : setKey bb cl key v false =
      (Except.error (BBError.accessDenied r.target),
       pushActivity bb ⟨r.target, cl.name, BBAction.accessDeniedAct⟩) := by
    simp [setKey, hr, hw, hv]
  exact ⟨by rw [hset], by rw [hset]; simp [pushActivity_store, hv]⟩

/-- Witness for C10 at the `spaghetti` key after `BlackboardWriter.update`'s
two successful writes: the Bolognese write with `overwrite=False` fails and a
subsequent read still yields the Gnocchi dictionary. -/
theorem c10_overwrite_guard_witness :
    (setKey spagBB writerClient "spaghetti" bologneseVal false).1 =
      Except.error (BBError.accessDenied "/spaghetti") ∧
    lookupKey (setKey spagBB writerClient "spaghetti" bologneseVal false).2.store "/spaghetti" =
      some gnocchiVal :=
  c10_overwrite_guard spagBB writerClient "spaghetti"
    ⟨"/spaghetti", "/spaghetti", Access.write⟩ gnocchiVal (by rfl) (by rfl) (by rfl) bologneseVal
